import Mathlib

/-!
Verification of the combinator layer of the weedle crate (src/common.rs).

The crate builds recursive-descent parsers from nom 3/4-era macro
combinators over complete input (no streaming / `Incomplete` results), so a
parser over a value type `a` is embedded as a function from the input
character list to `Option (value, remaining input)`; `none` is the uniform
`ParseFailure` of the spec (section 7).

The combinator implementations in src/common.rs are instantiations of the
nom macro combinators (`opt!`, `many0!`, `do_parse!`, `separated_list!`,
`separated_nonempty_list!`, `ws!`, `re_capture_static!`); those macros are
embedded here with their library semantics, with the zero-width-success
tie-break of the repetition combinators taken from the spec (section 4.4:
zero-width successes are detected and rejected).  The crate's `term` module
(terminal tokens) is outside the sources provided and is modelled from the
spec.
-/

namespace Weedle

/-- Input to a parser: the remaining characters of the text. -/
abbrev Input := List Char

/-- The `Parse` capability of the crate: success returns the value and the
remaining input, failure is the uniform `ParseFailure`. -/
abbrev Parser (α : Type) := Input → Option (α × Input)

/-- Whitespace characters skipped by nom's `ws!` / `sp`. -/
def isWs (c : Char) : Bool :=
  decide (c = ' ') || decide (c = '\t') || decide (c = '\n') || decide (c = '\r')

/-- Drop leading whitespace. -/
def skipWs (s : Input) : Input := s.dropWhile isWs

/-- ASCII letter, the `[A-Za-z]` class of the identifier regex. -/
def isAsciiLetter (c : Char) : Bool :=
  (decide ('A' ≤ c) && decide (c ≤ 'Z')) || (decide ('a' ≤ c) && decide (c ≤ 'z'))

/-- Continuation class `[0-9A-Z_a-z-]` of the identifier regex. -/
def isIdentCont (c : Char) : Bool :=
  isAsciiLetter c || (decide ('0' ≤ c) && decide (c ≤ '9')) || decide (c = '_') ||
    decide (c = '-')

/-- Match of the anchored regex `_?[A-Za-z][0-9A-Z_a-z-]*` at the start of
the input (`re_capture_static!` in `Identifier::parse`): optional single
underscore, one ASCII letter, then the greedy (maximal) run of continuation
characters.  Returns the matched text and the rest. -/
def identCore (s : Input) : Option (List Char × Input) :=
  match s with
  | [] => none
  | c :: rest =>
    if isAsciiLetter c then
      some (c :: rest.takeWhile isIdentCont, rest.dropWhile isIdentCont)
    else if c = '_' then
      match rest with
      | [] => none
      | d :: rest2 =>
        if isAsciiLetter d then
          some (c :: d :: rest2.takeWhile isIdentCont, rest2.dropWhile isIdentCont)
        else none
    else none

/-- AST node for `Identifier` (src/common.rs): the matched name, verbatim. -/
structure Identifier where
  name : List Char
deriving Repr, DecidableEq

/-- Parser of `Identifier` (src/common.rs): `ws!(re_capture_static!(r"^(_?[A-Za-z][0-9A-Z_a-z-]*)"))`;
whitespace around the match is skipped and excluded from the stored name. -/
def identP : Parser Identifier := fun input =>
  match identCore (skipWs input) with
  | none => none
  | some (name, rest) => some (⟨name⟩, skipWs rest)

/-- Spec-side statement of the identifier lexical rule (spec section 4.8,
written from the spec's words, for comparison with `identP`): an optional
single underscore, then one ASCII letter, then zero or more characters of
the continuation class. -/
def identNameOk (name : List Char) : Bool :=
  match name with
  | [] => false
  | c :: rest =>
    if isAsciiLetter c then rest.all isIdentCont
    else if c = '_' then
      match rest with
      | [] => false
      | d :: rest2 => isAsciiLetter d && rest2.all isIdentCont
    else false

/-- Modelled from the spec: the terminal-token parsers of the crate's `term`
module are outside the provided sources; per spec section 6 each matches
exactly its fixed lexeme with surrounding whitespace skipped. -/
def termP (lexeme : List Char) : Parser Unit := fun input =>
  let s := skipWs input
  if lexeme.isPrefixOf s then some ((), skipWs (s.drop lexeme.length)) else none

/-- Lexeme of `term::OpenParen` (spec section 2: Parenthesized delimits with
curly braces; repo test parses a curly-brace group as Parenthesized). -/
def openParenTok : List Char := [Char.ofNat 123]

/-- Lexeme of `term::CloseParen`. -/
def closeParenTok : List Char := [Char.ofNat 125]

/-- Lexeme of `term::OpenBracket`. -/
def openBracketTok : List Char := ['[']

/-- Lexeme of `term::CloseBracket`. -/
def closeBracketTok : List Char := [']']

/-- Lexeme of `term::OpenBrace` (spec section 2: Braced delimits with
parentheses). -/
def openBraceTok : List Char := ['(']

/-- Lexeme of `term::CloseBrace`. -/
def closeBraceTok : List Char := [')']

/-- Lexeme of `term::LessThan`. -/
def lessThanTok : List Char := ['<']

/-- Lexeme of `term::GreaterThan`. -/
def greaterThanTok : List Char := ['>']

/-- Comma terminal `term!(,)`. -/
def commaP : Parser Unit := termP [',']

/-- Parser of `Option<T>` (src/common.rs): nom's `opt!` — attempt `T`; a
failure becomes a successful absent result that consumes nothing. -/
def optP {α : Type} (p : Parser α) : Parser (Option α) := fun input =>
  match p input with
  | some (v, i) => some (some v, i)
  | none => some (none, input)

/-- Owning wrapper, the embedding of `Box<T>`. -/
structure BoxT (α : Type) where
  inner : α
deriving Repr, DecidableEq

/-- Parser of `Box<T>` (src/common.rs): parse `T`, wrap the value. -/
def boxP {α : Type} (p : Parser α) : Parser (BoxT α) := fun input =>
  match p input with
  | some (v, i) => some (⟨v⟩, i)
  | none => none

/-- Parser of `(T, U)` (src/common.rs): `do_parse!` sequencing, left to
right, aborting on the first failure. -/
def tuple2P {α β : Type} (p : Parser α) (q : Parser β) : Parser (α × β) := fun input =>
  match p input with
  | none => none
  | some (a, i1) =>
    match q i1 with
    | none => none
    | some (b, i2) => some ((a, b), i2)

/-- Parser of `(T, U, V)` (src/common.rs). -/
def tuple3P {α β γ : Type} (p : Parser α) (q : Parser β) (r : Parser γ) :
    Parser (α × β × γ) := fun input =>
  match p input with
  | none => none
  | some (a, i1) =>
    match q i1 with
    | none => none
    | some (b, i2) =>
      match r i2 with
      | none => none
      | some (c, i3) => some ((a, b, c), i3)

/-- Result of one run of a fuelled repetition loop: `out` is fuel
exhaustion (never reached with sufficient fuel, see the termination
theorems), `fail` is a parse failure of the whole repetition, `done` is
normal completion. -/
inductive MRes (α : Type) where
  | out : MRes α
  | fail : MRes α
  | done : List α → Input → MRes α
deriving Repr, DecidableEq

/-- Fuelled body of nom's `many0!`: repeatedly attempt the element parser;
an element failure ends the repetition normally; a zero-width element
success is detected and rejected as a failure of the repetition (spec
section 4.4; nom's `Many0` error). -/
def many0F {α : Type} (p : Parser α) : Nat → Input → MRes α
  | 0, _ => .out
  | fuel+1, input =>
    match p input with
    | none => .done [] input
    | some (v, i) =>
      if i = input then .fail
      else
        match many0F p fuel i with
        | .out => .out
        | .fail => .fail
        | .done vs rest => .done (v :: vs) rest

/-- Parser of `Vec<T>` (src/common.rs): nom's `many0!`.  The fuel
`input.length + 1` is sufficient for every input-consuming element parser
(see the termination theorem). -/
def many0P {α : Type} (p : Parser α) : Parser (List α) := fun input =>
  match many0F p (input.length + 1) input with
  | .done vs rest => some (vs, rest)
  | _ => none

/-- AST node for `Parenthesized<T>` (src/common.rs). -/
structure Parenthesized (α : Type) where
  open_paren : Unit
  body : α
  close_paren : Unit
deriving Repr, DecidableEq

/-- Parser of `Parenthesized<T>` (src/common.rs): open token, body, close
token, in order, failing if any of the three fails. -/
def parenthesizedP {α : Type} (p : Parser α) : Parser (Parenthesized α) := fun input =>
  match termP openParenTok input with
  | none => none
  | some (o, i1) =>
    match p i1 with
    | none => none
    | some (b, i2) =>
      match termP closeParenTok i2 with
      | none => none
      | some (c, i3) => some (⟨o, b, c⟩, i3)

/-- AST node for `Bracketed<T>` (src/common.rs). -/
structure Bracketed (α : Type) where
  open_bracket : Unit
  body : α
  close_bracket : Unit
deriving Repr, DecidableEq

/-- Parser of `Bracketed<T>` (src/common.rs). -/
def bracketedP {α : Type} (p : Parser α) : Parser (Bracketed α) := fun input =>
  match termP openBracketTok input with
  | none => none
  | some (o, i1) =>
    match p i1 with
    | none => none
    | some (b, i2) =>
      match termP closeBracketTok i2 with
      | none => none
      | some (c, i3) => some (⟨o, b, c⟩, i3)

/-- AST node for `Braced<T>` (src/common.rs). -/
structure Braced (α : Type) where
  open_brace : Unit
  body : α
  close_brace : Unit
deriving Repr, DecidableEq

/-- Parser of `Braced<T>` (src/common.rs). -/
def bracedP {α : Type} (p : Parser α) : Parser (Braced α) := fun input =>
  match termP openBraceTok input with
  | none => none
  | some (o, i1) =>
    match p i1 with
    | none => none
    | some (b, i2) =>
      match termP closeBraceTok i2 with
      | none => none
      | some (c, i3) => some (⟨o, b, c⟩, i3)

/-- AST node for `Generics<T>` (src/common.rs). -/
structure Generics (α : Type) where
  open_angle : Unit
  body : α
  close_angle : Unit
deriving Repr, DecidableEq

/-- Parser of `Generics<T>` (src/common.rs). -/
def genericsP {α : Type} (p : Parser α) : Parser (Generics α) := fun input =>
  match termP lessThanTok input with
  | none => none
  | some (o, i1) =>
    match p i1 with
    | none => none
    | some (b, i2) =>
      match termP greaterThanTok i2 with
      | none => none
      | some (c, i3) => some (⟨o, b, c⟩, i3)

/-- Fuelled loop of nom's `separated_list!` after the first element:
attempt the separator; on its failure end the list; otherwise attempt the
next element; on its failure end the list with the cursor restored to
before the separator; zero-width steps end the list (nom 3 semantics). -/
def sepListLoopF {α σ : Type} (sep : Parser σ) (item : Parser α) :
    Nat → Input → List α → MRes α
  | 0, _, _ => .out
  | fuel+1, input, acc =>
    match sep input with
    | none => .done acc input
    | some (_, i2) =>
      if i2 = input then .done acc input
      else
        match item i2 with
        | none => .done acc input
        | some (v, i3) =>
          if i3 = i2 then .done acc input
          else sepListLoopF sep item fuel i3 (acc ++ [v])

/-- Nom's `separated_list!`: failure of the first element yields the empty
list; a zero-width first element is rejected (nom's `SeparatedList`
error); then the separator/element loop. -/
def separatedListP {α σ : Type} (sep : Parser σ) (item : Parser α) :
    Parser (List α) := fun input =>
  match item input with
  | none => some ([], input)
  | some (v, i) =>
    if i = input then none
    else
      match sepListLoopF sep item (i.length + 1) i [v] with
      | .done vs rest => some (vs, rest)
      | _ => none

/-- Nom's `separated_nonempty_list!`: as `separated_list!` but failure of
the first element fails the whole parse. -/
def separatedNonEmptyListP {α σ : Type} (sep : Parser σ) (item : Parser α) :
    Parser (List α) := fun input =>
  match item input with
  | none => none
  | some (v, i) =>
    if i = input then none
    else
      match sepListLoopF sep item (i.length + 1) i [v] with
      | .done vs rest => some (vs, rest)
      | _ => none

/-- AST node for `Punctuated<T, S>` (src/common.rs): the element list and
one stored separator value. -/
structure Punctuated (α σ : Type) where
  list : List α
  separator : σ
deriving Repr, DecidableEq

/-- AST node for `PunctuatedNonEmpty<T, S>` (src/common.rs). -/
structure PunctuatedNonEmpty (α σ : Type) where
  list : List α
  separator : σ
deriving Repr, DecidableEq

/-- Parser of `Punctuated<T, S>` (src/common.rs): `separated_list!`, then
the stored separator is `S::default()`, embedded as the extra argument
`sdef`. -/
def punctuatedP {α σ : Type} (sep : Parser σ) (sdef : σ) (item : Parser α) :
    Parser (Punctuated α σ) := fun input =>
  match separatedListP sep item input with
  | none => none
  | some (vs, rest) => some (⟨vs, sdef⟩, rest)

/-- Parser of `PunctuatedNonEmpty<T, S>` (src/common.rs):
`separated_nonempty_list!`, stored separator `S::default()`. -/
def punctuatedNonEmptyP {α σ : Type} (sep : Parser σ) (sdef : σ) (item : Parser α) :
    Parser (PunctuatedNonEmpty α σ) := fun input =>
  match separatedNonEmptyListP sep item input with
  | none => none
  | some (vs, rest) => some (⟨vs, sdef⟩, rest)

/-- A parser whose remaining input is always a suffix of its input (every
parser built from the crate's combinators has this shape). -/
def SuffixRespecting {α : Type} (p : Parser α) : Prop :=
  ∀ s v r, p s = some (v, r) → r <:+ s

/-- A parser that consumes at least one character whenever it succeeds. -/
def Consumes {α : Type} (p : Parser α) : Prop :=
  ∀ s v r, p s = some (v, r) → r <:+ s ∧ r ≠ s

/-! Helper lemmas. -/

theorem takeWhile_all_self (q : Char → Bool) (l : List Char) :
    (l.takeWhile q).all q = true := by
  induction l with
  | nil => rfl
  | cons c t ih =>
    by_cases h : q c
    · simp [List.takeWhile_cons, h, ih]
    · simp [List.takeWhile_cons, h]

theorem takeWhile_append_of_all (q : Char → Bool) (l r : List Char) :
    l.all q = true → (l ++ r).takeWhile q = l ++ r.takeWhile q := by
  induction l with
  | nil => intro _; rfl
  | cons c t ih =>
    intro h
    simp only [List.all_cons, Bool.and_eq_true] at h
    simp [List.takeWhile_cons, h.1, ih h.2]

theorem dropWhile_append_of_all (q : Char → Bool) (l r : List Char) :
    l.all q = true → (l ++ r).dropWhile q = r.dropWhile q := by
  induction l with
  | nil => intro _; rfl
  | cons c t ih =>
    intro h
    simp only [List.all_cons, Bool.and_eq_true] at h
    simp [List.dropWhile_cons, h.1, ih h.2]

theorem dropWhile_cons_of_neg (q : Char → Bool) (c : Char) (t : List Char)
    (h : q c = false) : (c :: t).dropWhile q = c :: t := by
  simp [List.dropWhile_cons, h]

theorem not_ws_of_letter {c : Char} (h : isAsciiLetter c = true) : isWs c = false := by
  rcases Bool.eq_false_or_eq_true (isWs c) with hw | hw
  · exfalso
    simp only [isWs, Bool.or_eq_true, decide_eq_true_eq] at hw
    rcases hw with ((h1 | h1) | h1) | h1 <;> subst h1 <;> exact absurd h (by decide)
  · exact hw

theorem skipWs_suffix (s : Input) : skipWs s <:+ s := List.dropWhile_suffix _

theorem identCore_consumes {s : Input} {nm : List Char} {r : Input}
    (h : identCore s = some (nm, r)) : r <:+ s ∧ r.length < s.length := by
  match s with
  | [] => simp [identCore] at h
  | c :: rest =>
    simp only [identCore] at h
    by_cases h1 : isAsciiLetter c = true
    · rw [if_pos h1] at h
      simp only [Option.some.injEq, Prod.mk.injEq] at h
      obtain ⟨-, hr⟩ := h
      subst hr
      refine ⟨(List.dropWhile_suffix _).trans (List.suffix_cons _ _), ?_⟩
      have hle : (rest.dropWhile isIdentCont).length ≤ rest.length :=
        (List.dropWhile_suffix isIdentCont : rest.dropWhile isIdentCont <:+ rest).length_le
      simp only [List.length_cons]
      omega
    · rw [if_neg h1] at h
      by_cases h2 : c = '_'
      · rw [if_pos h2] at h
        match rest with
        | [] => simp at h
        | d :: rest2 =>
          by_cases h3 : isAsciiLetter d = true
          · simp only [h3, if_true, Option.some.injEq, Prod.mk.injEq] at h
            obtain ⟨-, hr⟩ := h
            subst hr
            refine ⟨((List.dropWhile_suffix _).trans (List.suffix_cons _ _)).trans
              (List.suffix_cons _ _), ?_⟩
            have hle : (rest2.dropWhile isIdentCont).length ≤ rest2.length :=
              (List.dropWhile_suffix isIdentCont :
                rest2.dropWhile isIdentCont <:+ rest2).length_le
            simp only [List.length_cons]
            omega
          · simp [h3] at h
      · rw [if_neg h2] at h; exact absurd h (by simp)

theorem identP_consumes : Consumes identP := by
  intro s v r h
  simp only [identP] at h
  cases hc : identCore (skipWs s) with
  | none => rw [hc] at h; exact absurd h (by simp)
  | some pr =>
    obtain ⟨nm, rest⟩ := pr
    rw [hc] at h
    simp only [Option.some.injEq, Prod.mk.injEq] at h
    obtain ⟨-, hr⟩ := h
    obtain ⟨hsuf, hlen⟩ := identCore_consumes hc
    have h1 : r <:+ rest := hr ▸ skipWs_suffix rest
    have h3 : skipWs s <:+ s := skipWs_suffix s
    refine ⟨h1.trans (hsuf.trans h3), ?_⟩
    have hl : r.length < s.length := by
      have l1 : r.length ≤ rest.length := h1.length_le
      have l2 : (skipWs s).length ≤ s.length := h3.length_le
      omega
    intro he
    rw [he] at hl
    omega

theorem identP_suffixRespecting : SuffixRespecting identP :=
  fun s v r h => (identP_consumes s v r h).1

theorem identCore_sound {s : Input} {nm : List Char} {r : Input}
    (h : identCore s = some (nm, r)) : identNameOk nm = true := by
  match s with
  | [] => simp [identCore] at h
  | c :: rest =>
    simp only [identCore] at h
    by_cases h1 : isAsciiLetter c = true
    · rw [if_pos h1] at h
      simp only [Option.some.injEq, Prod.mk.injEq] at h
      obtain ⟨hn, -⟩ := h
      rw [← hn]
      simp [identNameOk, h1, takeWhile_all_self]
    · rw [if_neg h1] at h
      by_cases h2 : c = '_'
      · rw [if_pos h2] at h
        match rest with
        | [] => simp at h
        | d :: rest2 =>
          by_cases h3 : isAsciiLetter d = true
          · simp only [h3, if_true, Option.some.injEq, Prod.mk.injEq] at h
            obtain ⟨hn, -⟩ := h
            have hus : isAsciiLetter '_' = false := by decide
            rw [← hn]
            simp [identNameOk, hus, h2, h3, takeWhile_all_self]
          · simp [h3] at h
      · rw [if_neg h2] at h; exact absurd h (by simp)

theorem identP_sound {input : Input} {name : List Char} {rest : Input}
    (h : identP input = some (⟨name⟩, rest)) : identNameOk name = true := by
  simp only [identP] at h
  cases hc : identCore (skipWs input) with
  | none => rw [hc] at h; exact absurd h (by simp)
  | some pr =>
    obtain ⟨nm, r⟩ := pr
    rw [hc] at h
    simp only [Option.some.injEq, Prod.mk.injEq, Identifier.mk.injEq] at h
    exact h.1 ▸ identCore_sound hc

theorem identP_complete (w1 name rest : List Char) (hw : w1.all isWs = true)
    (hn : identNameOk name = true) (hr : rest.takeWhile isIdentCont = []) :
    identP (w1 ++ name ++ rest) = some (⟨name⟩, skipWs rest) := by
  have hrd : rest.dropWhile isIdentCont = rest := by
    conv_rhs => rw [← List.takeWhile_append_dropWhile isIdentCont rest]
    rw [hr, List.nil_append]
  match name with
  | [] => simp [identNameOk] at hn
  | c :: t =>
    simp only [identNameOk] at hn
    by_cases h1 : isAsciiLetter c = true
    · rw [if_pos h1] at hn
      have hcw : isWs c = false := not_ws_of_letter h1
      have hskip : skipWs (w1 ++ (c :: t) ++ rest) = c :: (t ++ rest) := by
        rw [List.append_assoc, List.cons_append]
        unfold skipWs
        rw [dropWhile_append_of_all isWs w1 _ hw]
        exact dropWhile_cons_of_neg _ _ _ hcw
      simp only [identP, hskip, identCore, if_pos h1]
      rw [takeWhile_append_of_all isIdentCont t rest hn,
        dropWhile_append_of_all isIdentCont t rest hn, hr, hrd, List.append_nil]
    · rw [if_neg h1] at hn
      by_cases h2 : c = '_'
      · rw [if_pos h2] at hn
        match t with
        | [] => simp at hn
        | d :: t2 =>
          simp only [Bool.and_eq_true] at hn
          obtain ⟨h3, h4⟩ := hn
          have hcw : isWs c = false := by rw [h2]; decide
          have hskip : skipWs (w1 ++ (c :: d :: t2) ++ rest) = c :: d :: (t2 ++ rest) := by
            rw [List.append_assoc, List.cons_append, List.cons_append]
            unfold skipWs
            rw [dropWhile_append_of_all isWs w1 _ hw]
            exact dropWhile_cons_of_neg _ _ _ hcw
          simp only [identP, hskip, identCore, if_neg h1, if_pos h2, if_pos h3]
          rw [takeWhile_append_of_all isIdentCont t2 rest h4,
            dropWhile_append_of_all isIdentCont t2 rest h4, hr, hrd, List.append_nil]
      · rw [if_neg h2] at hn; exact absurd hn (by simp)

/-! Claim theorems. -/

/-- C3: `Identifier` parses exactly the lexical rule (optional single
underscore, one ASCII letter, then zero or more of letter / digit /
underscore / hyphen), with surrounding whitespace skipped before and after
the match and excluded from the stored name: every parsed name satisfies
the rule; any input made of leading whitespace, a valid name, and a rest
that does not begin with a continuation character parses to exactly that
name with the rest's leading whitespace skipped; non-matching inputs fail;
and the spec's six concrete examples hold. -/
theorem identifier_lexical_rule :
    (∀ (input : Input) (name : List Char) (rest : Input),
        identP input = some (⟨name⟩, rest) → identNameOk name = true)
  ∧ (∀ (w1 name rest : List Char), w1.all isWs = true → identNameOk name = true →
        rest.takeWhile isIdentCont = [] →
        identP (w1 ++ name ++ rest) = some (⟨name⟩, skipWs rest))
  ∧ identP ("".toList) = none
  ∧ identP ("5x".toList) = none
  ∧ identP ("_5".toList) = none
  ∧ identP ("=".toList) = none
  ∧ identP ("hello".toList) = some (⟨"hello".toList⟩, [])
  ∧ identP ("hello5".toList) = some (⟨"hello5".toList⟩, [])
  ∧ identP ("_hello_".toList) = some (⟨"_hello_".toList⟩, [])
  ∧ identP ("  hello  ".toList) = some (⟨"hello".toList⟩, [])
  ∧ identP ("hello  note".toList) = some (⟨"hello".toList⟩, "note".toList)
  ∧ identP ("hello=".toList) = some (⟨"hello".toList⟩, "=".toList) :=
  ⟨fun _ _ _ h => identP_sound h, identP_complete,
   rfl, rfl, rfl, rfl, rfl, rfl, rfl, rfl, rfl, rfl⟩

/-- Witness for C3: the completeness clause applied to the concrete
decomposition of the spec example with surrounding whitespace. -/
theorem identifier_lexical_rule_witness :
    identP ("  ".toList ++ "hello".toList ++ "  ".toList) =
      some (⟨"hello".toList⟩, skipWs ("  ".toList)) :=
  identifier_lexical_rule.2.1 ("  ".toList) ("hello".toList) ("  ".toList)
    (by decide) (by decide) (by decide)

/-- C4: for every element parser and every input, `Option<T>` never fails:
on the element's success it is present with the element's value and cursor
advancement; on the element's failure it is absent, the failure is not
propagated, and no input is consumed. -/
theorem optional_never_fails {α : Type} (p : Parser α) (input : Input) :
    optP p input ≠ none
  ∧ (∀ v i, p input = some (v, i) → optP p input = some (some v, i))
  ∧ (p input = none → optP p input = some (none, input)) := by
  refine ⟨?_, ?_, ?_⟩
  · cases h : p input with
    | none => simp [optP, h]
    | some vi => simp [optP, h]
  · intro v i h
    simp [optP, h]
  · intro h
    simp [optP, h]

/-- Witness for C4 at `Identifier` on a failing and a succeeding input. -/
theorem optional_never_fails_witness :
    optP identP ("=".toList) = some (none, "=".toList)
  ∧ optP identP ("one".toList) = some (some ⟨"one".toList⟩, []) :=
  ⟨(optional_never_fails identP ("=".toList)).2.2 rfl,
   (optional_never_fails identP ("one".toList)).2.1 ⟨"one".toList⟩ [] rfl⟩

/-- C7: parsing `Box<T>` is behaviorally identical to parsing `T`: it
succeeds exactly when `T` succeeds, consumes exactly the same input, wraps
the same value, and propagates the same failure. -/
theorem boxed_transparent {α : Type} (p : Parser α) (input : Input) :
    (boxP p input = none ↔ p input = none)
  ∧ ∀ v i, boxP p input = some (⟨v⟩, i) ↔ p input = some (v, i) := by
  cases h : p input with
  | none => simp [boxP, h]
  | some vi =>
    obtain ⟨w, j⟩ := vi
    simp [boxP, h, BoxT.mk.injEq]

/-- Witness for C7 at `Identifier` on a succeeding and a failing input. -/
theorem boxed_transparent_witness :
    boxP identP ("one".toList) = some (⟨⟨"one".toList⟩⟩, [])
  ∧ boxP identP ("=".toList) = none :=
  ⟨((boxed_transparent identP ("one".toList)).2 ⟨"one".toList⟩ []).mpr rfl,
   (boxed_transparent identP ("=".toList)).1.mpr rfl⟩

/-- C8: the tuple parsers run their components strictly left to right,
abort at the first failing component with that failure and no partial
result, and on success return all components in order. -/
theorem tuples_left_to_right :
    (∀ (α β : Type) (p : Parser α) (q : Parser β) (input : Input),
        p input = none → tuple2P p q input = none)
  ∧ (∀ (α β : Type) (p : Parser α) (q : Parser β) (input : Input) (a : α) (i1 : Input),
        p input = some (a, i1) → q i1 = none → tuple2P p q input = none)
  ∧ (∀ (α β : Type) (p : Parser α) (q : Parser β) (input : Input) (a : α) (i1 : Input)
        (b : β) (i2 : Input), p input = some (a, i1) → q i1 = some (b, i2) →
        tuple2P p q input = some ((a, b), i2))
  ∧ (∀ (α β γ : Type) (p : Parser α) (q : Parser β) (r : Parser γ) (input : Input),
        p input = none → tuple3P p q r input = none)
  ∧ (∀ (α β γ : Type) (p : Parser α) (q : Parser β) (r : Parser γ) (input : Input)
        (a : α) (i1 : Input), p input = some (a, i1) → q i1 = none →
        tuple3P p q r input = none)
  ∧ (∀ (α β γ : Type) (p : Parser α) (q : Parser β) (r : Parser γ) (input : Input)
        (a : α) (i1 : Input) (b : β) (i2 : Input), p input = some (a, i1) →
        q i1 = some (b, i2) → r i2 = none → tuple3P p q r input = none)
  ∧ (∀ (α β γ : Type) (p : Parser α) (q : Parser β) (r : Parser γ) (input : Input)
        (a : α) (i1 : Input) (b : β) (i2 : Input) (c : γ) (i3 : Input),
        p input = some (a, i1) → q i1 = some (b, i2) → r i2 = some (c, i3) →
        tuple3P p q r input = some ((a, b, c), i3)) := by
  refine ⟨?_, ?_, ?_, ?_, ?_, ?_, ?_⟩
  · intro α β p q input h1
    simp [tuple2P, h1]
  · intro α β p q input a i1 h1 h2
    simp [tuple2P, h1, h2]
  · intro α β p q input a i1 b i2 h1 h2
    simp [tuple2P, h1, h2]
  · intro α β γ p q r input h1
    simp [tuple3P, h1]
  · intro α β γ p q r input a i1 h1 h2
    simp [tuple3P, h1, h2]
  · intro α β γ p q r input a i1 b i2 h1 h2 h3
    simp [tuple3P, h1, h2, h3]
  · intro α β γ p q r input a i1 b i2 c i3 h1 h2 h3
    simp [tuple3P, h1, h2, h3]

/-- Witness for C8: concrete two- and three-component parses over
identifiers and the comma terminal, exercising each abort point and the
success path. -/
theorem tuples_left_to_right_witness :
    tuple2P identP identP ("=".toList) = none
  ∧ tuple2P identP identP ("one".toList) = none
  ∧ tuple2P identP identP ("one two".toList) =
      some ((⟨"one".toList⟩, ⟨"two".toList⟩), [])
  ∧ tuple3P identP commaP identP ("one".toList) = none
  ∧ tuple3P identP commaP identP ("one,".toList) = none
  ∧ tuple3P identP commaP identP ("one, two".toList) =
      some ((⟨"one".toList⟩, (), ⟨"two".toList⟩), []) :=
  ⟨tuples_left_to_right.1 Identifier Identifier identP identP ("=".toList) rfl,
   tuples_left_to_right.2.1 Identifier Identifier identP identP ("one".toList)
     ⟨"one".toList⟩ [] rfl rfl,
   tuples_left_to_right.2.2.1 Identifier Identifier identP identP ("one two".toList)
     ⟨"one".toList⟩ ("two".toList) ⟨"two".toList⟩ [] rfl rfl,
   tuples_left_to_right.2.2.2.2.1 Identifier Unit Identifier identP commaP identP
     ("one".toList) ⟨"one".toList⟩ [] rfl rfl,
   tuples_left_to_right.2.2.2.2.2.1 Identifier Unit Identifier identP commaP identP
     ("one,".toList) ⟨"one".toList⟩ (",".toList) () [] rfl rfl rfl,
   tuples_left_to_right.2.2.2.2.2.2 Identifier Unit Identifier identP commaP identP
     ("one, two".toList) ⟨"one".toList⟩ (", two".toList) () ("two".toList)
     ⟨"two".toList⟩ [] rfl rfl rfl⟩

/-- C2: for every body parser, each of the four delimited-group parsers
fails whenever the close token parse fails after the open token and the
body both succeeded; in particular `Parenthesized<Identifier>` fails on
the input made of the open token and a valid body but no close token. -/
theorem delimited_group_requires_close :
    (∀ (α : Type) (p : Parser α) (input i1 : Input) (b : α) (i2 : Input),
        termP openParenTok input = some ((), i1) → p i1 = some (b, i2) →
        termP closeParenTok i2 = none → parenthesizedP p input = none)
  ∧ (∀ (α : Type) (p : Parser α) (input i1 : Input) (b : α) (i2 : Input),
        termP openBracketTok input = some ((), i1) → p i1 = some (b, i2) →
        termP closeBracketTok i2 = none → bracketedP p input = none)
  ∧ (∀ (α : Type) (p : Parser α) (input i1 : Input) (b : α) (i2 : Input),
        termP openBraceTok input = some ((), i1) → p i1 = some (b, i2) →
        termP closeBraceTok i2 = none → bracedP p input = none)
  ∧ (∀ (α : Type) (p : Parser α) (input i1 : Input) (b : α) (i2 : Input),
        termP lessThanTok input = some ((), i1) → p i1 = some (b, i2) →
        termP greaterThanTok i2 = none → genericsP p input = none)
  ∧ parenthesizedP identP ("\x7b one".toList) = none := by
  refine ⟨?_, ?_, ?_, ?_, rfl⟩
  · intro α p input i1 b i2 h1 h2 h3
    simp [parenthesizedP, h1, h2, h3]
  · intro α p input i1 b i2 h1 h2 h3
    simp [bracketedP, h1, h2, h3]
  · intro α p input i1 b i2 h1 h2 h3
    simp [bracedP, h1, h2, h3]
  · intro α p input i1 b i2 h1 h2 h3
    simp [genericsP, h1, h2, h3]

/-- Witness for C2: all four delimited groups on an input with a valid
open token and body but a missing close token. -/
theorem delimited_group_requires_close_witness :
    parenthesizedP identP ("\x7b one".toList) = none
  ∧ bracketedP identP ("[ one".toList) = none
  ∧ bracedP identP ("( one".toList) = none
  ∧ genericsP identP ("<one".toList) = none :=
  ⟨delimited_group_requires_close.1 Identifier identP ("\x7b one".toList)
     ("one".toList) ⟨"one".toList⟩ [] rfl rfl rfl,
   delimited_group_requires_close.2.1 Identifier identP ("[ one".toList)
     ("one".toList) ⟨"one".toList⟩ [] rfl rfl rfl,
   delimited_group_requires_close.2.2.1 Identifier identP ("( one".toList)
     ("one".toList) ⟨"one".toList⟩ [] rfl rfl rfl,
   delimited_group_requires_close.2.2.2.1 Identifier identP ("<one".toList)
     ("one".toList) ⟨"one".toList⟩ [] rfl rfl rfl⟩

/-- C6: `Punctuated` accepts a zero-length result — whenever the first
element fails (in particular on empty input), it succeeds with the empty
list and consumes nothing — whereas `PunctuatedNonEmpty` fails in exactly
that situation; concretely, `PunctuatedNonEmpty<Identifier, Comma>` fails
on the empty input and yields a one-element list on a single identifier
with no trailing separator. -/
theorem punctuated_zero_length :
    (∀ (α σ : Type) (sep : Parser σ) (sdef : σ) (item : Parser α) (input : Input),
        item input = none → punctuatedP sep sdef item input = some (⟨[], sdef⟩, input))
  ∧ (∀ (α σ : Type) (sep : Parser σ) (sdef : σ) (item : Parser α) (input : Input),
        item input = none → punctuatedNonEmptyP sep sdef item input = none)
  ∧ punctuatedP commaP () identP [] = some (⟨[], ()⟩, [])
  ∧ punctuatedNonEmptyP commaP () identP [] = none
  ∧ punctuatedNonEmptyP commaP () identP ("one".toList) =
      some (⟨[⟨"one".toList⟩], ()⟩, []) := by
  refine ⟨?_, ?_, rfl, rfl, rfl⟩
  · intro α σ sep sdef item input h
    simp [punctuatedP, separatedListP, h]
  · intro α σ sep sdef item input h
    simp [punctuatedNonEmptyP, separatedNonEmptyListP, h]

/-- Witness for C6: the generic clauses applied to `Identifier` and the
comma terminal on an input whose first element fails. -/
theorem punctuated_zero_length_witness :
    punctuatedP commaP () identP (",".toList) = some (⟨[], ()⟩, ",".toList)
  ∧ punctuatedNonEmptyP commaP () identP (",".toList) = none :=
  ⟨punctuated_zero_length.1 Identifier Unit commaP () identP (",".toList) rfl,
   punctuated_zero_length.2.1 Identifier Unit commaP () identP (",".toList) rfl⟩

/-- C9: for every successful `Punctuated` or `PunctuatedNonEmpty` parse,
the separator stored on the result is the default instance passed for
`S::default()`, independent of the input and of the separator values the
separator parser produced. -/
theorem punctuated_separator_is_default :
    (∀ (α σ : Type) (sep : Parser σ) (sdef : σ) (item : Parser α) (input : Input)
        (res : Punctuated α σ) (rest : Input),
        punctuatedP sep sdef item input = some (res, rest) → res.separator = sdef)
  ∧ (∀ (α σ : Type) (sep : Parser σ) (sdef : σ) (item : Parser α) (input : Input)
        (res : PunctuatedNonEmpty α σ) (rest : Input),
        punctuatedNonEmptyP sep sdef item input = some (res, rest) →
        res.separator = sdef) := by
  constructor
  · intro α σ sep sdef item input res rest h
    simp only [punctuatedP] at h
    cases hs : separatedListP sep item input with
    | none => rw [hs] at h; exact absurd h (by simp)
    | some pr =>
      obtain ⟨vs, r⟩ := pr
      rw [hs] at h
      simp only [Option.some.injEq, Prod.mk.injEq] at h
      rw [← h.1]
  · intro α σ sep sdef item input res rest h
    simp only [punctuatedNonEmptyP] at h
    cases hs : separatedNonEmptyListP sep item input with
    | none => rw [hs] at h; exact absurd h (by simp)
    | some pr =>
      obtain ⟨vs, r⟩ := pr
      rw [hs] at h
      simp only [Option.some.injEq, Prod.mk.injEq] at h
      rw [← h.1]

/-- Separator parser with a distinguishable payload (it yields 99 on every
match), used to witness that the stored separator is the passed default
instance, not a parsed value. -/
def taggedCommaP : Parser Nat := fun input =>
  match termP [','] input with
  | none => none
  | some (_, i) => some (99, i)

/-- Witness for C9: a concrete parse whose separator parser yields 99 but
whose stored separator is the default 7. -/
theorem punctuated_separator_is_default_witness :
    punctuatedP taggedCommaP 7 identP ("one, two".toList) =
      some (⟨[⟨"one".toList⟩, ⟨"two".toList⟩], 7⟩, [])
  ∧ (⟨[⟨"one".toList⟩, ⟨"two".toList⟩], 7⟩ : Punctuated Identifier Nat).separator = 7
  ∧ (⟨[⟨"one".toList⟩, ⟨"two".toList⟩], 7⟩ :
      PunctuatedNonEmpty Identifier Nat).separator = 7 :=
  ⟨rfl,
   punctuated_separator_is_default.1 Identifier Nat taggedCommaP 7 identP
     ("one, two".toList) ⟨[⟨"one".toList⟩, ⟨"two".toList⟩], 7⟩ [] rfl,
   punctuated_separator_is_default.2 Identifier Nat taggedCommaP 7 identP
     ("one, two".toList) ⟨[⟨"one".toList⟩, ⟨"two".toList⟩], 7⟩ [] rfl⟩

/-- C1 counterexample: a dangling separator does not fail the `Punctuated`
parse — `Punctuated<Identifier, Comma>` on an identifier followed by a
trailing comma succeeds with the one-element list and leaves the comma
unconsumed. -/
theorem punctuated_dangling_separator_succeeds :
    punctuatedP commaP () identP ("one,".toList) =
      some (⟨[⟨"one".toList⟩], ()⟩, ",".toList) := rfl

/-- C1 (amended): after a successfully parsed element the separator is
attempted; if the separator succeeds but the next element fails, parsing
stops and returns the list built so far with the cursor restored to before
the separator (the dangling separator is left unconsumed, it does not fail
the parse); if the separator fails, parsing stops and returns the list
built so far. -/
theorem punctuated_stops_at_dangling_separator :
    (∀ (α σ : Type) (sep : Parser σ) (sdef : σ) (item : Parser α) (input : Input)
        (v : α) (i : Input) (s2 : σ) (i2 : Input),
        item input = some (v, i) → i ≠ input → sep i = some (s2, i2) → i2 ≠ i →
        item i2 = none →
        punctuatedP sep sdef item input = some (⟨[v], sdef⟩, i)
        ∧ punctuatedNonEmptyP sep sdef item input = some (⟨[v], sdef⟩, i))
  ∧ (∀ (α σ : Type) (sep : Parser σ) (item : Parser α) (input : Input)
        (acc : List α) (n : Nat), sep input = none →
        sepListLoopF sep item (n + 1) input acc = MRes.done acc input) := by
  constructor
  · intro α σ sep sdef item input v i s2 i2 h1 h2 h3 h4 h5
    have hloop : sepListLoopF sep item (i.length + 1) i [v] = MRes.done [v] i := by
      simp [sepListLoopF, h3, h4, h5]
    constructor
    · simp [punctuatedP, separatedListP, h1, h2, hloop]
    · simp [punctuatedNonEmptyP, separatedNonEmptyListP, h1, h2, hloop]
  · intro α σ sep item input acc n h6
    simp [sepListLoopF, h6]

/-- Witness for C1: the amended behavior at the concrete dangling-separator
input, and the stop of the loop where the separator fails. -/
theorem punctuated_stops_at_dangling_separator_witness :
    (punctuatedP commaP () identP ("one,".toList) =
      some (⟨[⟨"one".toList⟩], ()⟩, ",".toList)
    ∧ punctuatedNonEmptyP commaP () identP ("one,".toList) =
      some (⟨[⟨"one".toList⟩], ()⟩, ",".toList))
  ∧ sepListLoopF commaP identP 1 [] [] = MRes.done [] [] :=
  ⟨punctuated_stops_at_dangling_separator.1 Identifier Unit commaP () identP
     ("one,".toList) ⟨"one".toList⟩ (",".toList) () [] rfl (by decide) rfl
     (by decide) rfl,
   punctuated_stops_at_dangling_separator.2 Identifier Unit commaP identP [] [] 0 rfl⟩

/-- C10: the `Vec<T>` repetition terminates on every finite input for every
suffix-respecting element parser: with fuel exceeding the input length the
fuelled loop never exhausts its fuel, because each successful iteration
strictly consumes input or the zero-width success is detected and the
repetition stopped. -/
theorem sequence_repetition_terminates {α : Type} (p : Parser α)
    (hp : SuffixRespecting p) :
    ∀ (fuel : Nat) (input : Input), input.length < fuel →
      many0F p fuel input ≠ MRes.out := by
  intro fuel
  induction fuel with
  | zero => intro input h; exact absurd h (Nat.not_lt_zero _)
  | succ n ih =>
    intro input h
    cases hpe : p input with
    | none => simp [many0F, hpe]
    | some vi =>
      obtain ⟨v, i⟩ := vi
      by_cases heq : i = input
      · simp [many0F, hpe, heq]
      · have hsuf : i <:+ input := hp input v i hpe
        have hlt : i.length < input.length := by
          have hle := hsuf.length_le
          rcases Nat.lt_or_ge i.length input.length with h' | h'
          · exact h'
          · exact absurd (hsuf.eq_of_length (by omega)) heq
        have hne := ih i (by omega)
        simp only [many0F, hpe]
        rw [if_neg heq]
        cases hmi : many0F p n i with
        | out => exact absurd hmi hne
        | fail => simp
        | done vs rest => simp

/-- Witness for C10: termination of the loop for `Identifier` on a concrete
input with fuel exceeding its length. -/
theorem sequence_repetition_terminates_witness :
    many0F identP 9 ("one two".toList) ≠ MRes.out :=
  sequence_repetition_terminates identP identP_suffixRespecting 9
    ("one two".toList) (by decide)

theorem many0F_done_of_consumes {α : Type} (p : Parser α) (hp : Consumes p) :
    ∀ (fuel : Nat) (input : Input), input.length < fuel →
      ∃ vs rest, many0F p fuel input = MRes.done vs rest ∧ p rest = none ∧
        rest <:+ input := by
  intro fuel
  induction fuel with
  | zero => intro input h; exact absurd h (Nat.not_lt_zero _)
  | succ n ih =>
    intro input h
    cases hpe : p input with
    | none => exact ⟨[], input, by simp [many0F, hpe], hpe, List.suffix_rfl⟩
    | some vi =>
      obtain ⟨v, i⟩ := vi
      obtain ⟨hsuf, hne⟩ := hp input v i hpe
      have hlt : i.length < input.length := by
        have hle := hsuf.length_le
        rcases Nat.lt_or_ge i.length input.length with h' | h'
        · exact h'
        · exact absurd (hsuf.eq_of_length (by omega)) hne
      obtain ⟨vs, rest, hdone, hrest, hsr⟩ := ih i (by omega)
      refine ⟨v :: vs, rest, ?_, hrest, hsr.trans hsuf⟩
      simp [many0F, hpe, hne, hdone]

/-- C5 counterexample: `Sequence<T>` does not always succeed — for the
element type `Option<Identifier>` (whose parser succeeds without consuming
input on a non-matching head), the `Vec` parse fails on a concrete input. -/
theorem sequence_can_fail_on_zero_width :
    many0P (optP identP) ("=".toList) = none := rfl

/-- C5 (amended): for every element parser that consumes input whenever it
succeeds, and every input, the `Vec<T>` parse succeeds, and its remainder
is a suffix of the input on which the element parser fails (maximal
munch). -/
theorem sequence_total_and_maximal_munch {α : Type} (p : Parser α)
    (hp : Consumes p) (input : Input) :
    many0P p input ≠ none
  ∧ ∀ vs rest, many0P p input = some (vs, rest) → p rest = none ∧ rest <:+ input := by
  obtain ⟨vs, rest, hdone, hrest, hsr⟩ :=
    many0F_done_of_consumes p hp (input.length + 1) input (Nat.lt_succ_self _)
  constructor
  · simp [many0P, hdone]
  · intro vs2 rest2 h
    simp only [many0P, hdone, Option.some.injEq, Prod.mk.injEq] at h
    exact ⟨h.2 ▸ hrest, h.2 ▸ hsr⟩

/-- Witness for C5: totality and maximal munch of the identifier sequence
on a concrete input. -/
theorem sequence_total_and_maximal_munch_witness :
    many0P identP ("one two".toList) ≠ none
  ∧ (identP [] = none ∧ ([] : Input) <:+ ("one two".toList)) :=
  ⟨(sequence_total_and_maximal_munch identP identP_consumes ("one two".toList)).1,
   (sequence_total_and_maximal_munch identP identP_consumes ("one two".toList)).2
     [⟨"one".toList⟩, ⟨"two".toList⟩] [] rfl⟩

end Weedle
